import Mathlib

/-!
Verification of the notion-analyzer gateway: a shallow embedding of the
repository's TypeScript source (api/_lib/notion.ts, api/_lib/normalize.ts,
api/_lib/validate.ts, api/_lib/text.ts, api/analyze.ts) into Lean, with
theorems settling the specification's claims about it.

Strings are modelled as Lean `String` (a list of characters); JavaScript
`.length` / `.slice` count UTF-16 units, which for the purposes of these
claims coincides with counting characters.
-/

/- ── Generic string/list helpers used by the embedding ────────────── -/

/-- Model of JavaScript `Array.prototype.join("")` (concatenation). -/
def joinAll : List String → String
  | [] => ""
  | x :: xs => x ++ joinAll xs

/-- Model of JavaScript `Array.prototype.join(sep)`. -/
def joinSep (sep : String) : List String → String
  | [] => ""
  | [x] => x
  | x :: xs => x ++ sep ++ joinSep sep xs

/-- Boolean prefix test on character lists (helper for `strIncludes`). -/
def listIsPrefix : List Char → List Char → Bool
  | [], _ => true
  | _ :: _, [] => false
  | a :: as, b :: bs => a == b && listIsPrefix as bs

/-- Helper: does `needle` occur as a contiguous run inside `hay`? -/
def listContains (hay needle : List Char) : Bool :=
  match hay with
  | [] => needle.isEmpty
  | _ :: t => listIsPrefix needle hay || listContains t needle

/-- Model of JavaScript `String.prototype.includes`. -/
def strIncludes (hay needle : String) : Bool :=
  listContains hay.data needle.data

/-- Model of JavaScript `String.prototype.toUpperCase` (ASCII range). -/
def toUpperStr (s : String) : String := ⟨s.data.map Char.toUpper⟩

/-- Model of JavaScript `String.prototype.toLowerCase` (ASCII range). -/
def toLowerStr (s : String) : String := ⟨s.data.map Char.toLower⟩

/-- Model of JavaScript `String.prototype.repeat`. -/
def strRepeat (s : String) (n : Nat) : String := joinAll (List.replicate n s)

/-- Model of JavaScript `String.prototype.slice(0, n)`. -/
def jsSlice (s : String) (n : Nat) : String := ⟨s.data.take n⟩

/- ── api/_lib/notion.ts — the write-guard gateway ─────────────────── -/

/-- Regex `/^\/v1\/pages\/?$/` from WRITE_PATTERNS (create page). -/
def pagesCreatePat (p : String) : Bool :=
  p == "/v1/pages" || p == "/v1/pages/"

/-- Regex `/^\/v1\/pages\//` from WRITE_PATTERNS (update page). -/
def pagesUpdatePat (p : String) : Bool :=
  ("/v1/pages/").isPrefixOf p

/-- Regex `/^\/v1\/blocks\//` from WRITE_PATTERNS (update/delete block). -/
def blocksPat (p : String) : Bool :=
  ("/v1/blocks/").isPrefixOf p

/-- Regex `/^\/v1\/comments\/?$/` from WRITE_PATTERNS (create comment). -/
def commentsCreatePat (p : String) : Bool :=
  p == "/v1/comments" || p == "/v1/comments/"

/-- notion.ts lines 14–20: the blocked (method, path-pattern) table. -/
def WRITE_PATTERNS : List (String × (String → Bool)) :=
  [("POST", pagesCreatePat),
   ("PATCH", pagesUpdatePat),
   ("PATCH", blocksPat),
   ("DELETE", blocksPat),
   ("POST", commentsCreatePat)]

/-- notion.ts lines 22–31: classify a call from its method and path only. -/
def isWriteCall (method path : String) : Bool :=
  let upper := toUpperStr method
  if upper == "PATCH" || upper == "DELETE" then true
  else WRITE_PATTERNS.any fun wp => upper == wp.1 && wp.2 path

/-- The error message thrown by the hard guard (notion.ts line 46). -/
def blockedMsg (method path : String) : String :=
  "BLOCKED: Write operation attempted — " ++ method ++ " " ++ path ++
    ". This API is read-only."

/-- notion.ts lines 41–47 (`notionFetch`): the method defaults to GET and is
uppercased, then the (method, path) pair is classified by `isWriteCall`
before anything else happens.  `.error` models the `throw` (no network
request is ever issued); `.ok (method, path)` models the request that is
forwarded to the network in the non-blocked case (token lookup, URL
building and the actual `fetch` happen only on this branch). -/
def notionFetch (path : String) (optMethod : Option String) :
    Except String (String × String) :=
  let method := toUpperStr (optMethod.getD "GET")
  if isWriteCall method path then .error (blockedMsg method path)
  else .ok (method, path)

/-- notion.ts line 87: path used by `retrievePage` (a GET). -/
def retrievePagePath (pageId : String) : String := "/v1/pages/" ++ pageId

/-- notion.ts line 100: path used by `retrieveBlockChildren` (a GET). -/
def retrieveBlockChildrenPath (blockId : String) : String :=
  "/v1/blocks/" ++ blockId ++ "/children"

/-- notion.ts line 110: path used by `queryDatabase` (a POST). -/
def queryDatabasePath (databaseId : String) : String :=
  "/v1/databases/" ++ databaseId ++ "/query"

/-- notion.ts line 110: path used by the search call (a POST). -/
def searchPath : String := "/v1/search"

/- ── api/_lib/notion.ts — the bounded recursive block fetcher ─────── -/

/-- One node of the upstream tree: the fields of a Notion block that the
traversal inspects (`id`, `type`, `has_children`) together with the list of
children the upstream would return for `retrieveBlockChildren(id)`.  The
rest of the raw record (`data`) plays no role in the traversal. -/
inductive Block : Type where
  | node (id type : String) (hasChildren : Bool) (children : List Block)

/-- notion.ts lines 118–123 (`FlatBlock`), minus the raw `data` payload. -/
structure FlatBlock where
  id : String
  type : String
  depth : Nat
deriving DecidableEq

/-- The `for (const block of resp.results)` loop body of `recurse`
(notion.ts lines 134–148), with the shared mutable `result` array threaded
through as the accumulator `acc`.  The inner conditional is the inlined
body of `recurse` (its entry guard `depth > maxDepth || length >= maxBlocks`
followed by its own loop); `recurse` below packages it back up. -/
def loop (D N : Nat) (depth : Nat) : List Block → List FlatBlock → List FlatBlock
  | [], acc => acc
  | Block.node bid btype hc ch :: rest, acc =>
    if N ≤ acc.length then acc
    else
      let acc1 := acc ++ [⟨bid, btype, depth⟩]
      let acc2 :=
        if hc = true ∧ depth < D then
          if depth + 1 > D ∨ N ≤ acc1.length then acc1
          else loop D N (depth + 1) ch acc1
        else acc1
      loop D N depth rest acc2
termination_by l => sizeOf l

/-- notion.ts lines 130–149 (`recurse`): entry guard, then the loop over the
children of the current parent. -/
def recurse (D N : Nat) (depth : Nat) (children : List Block)
    (acc : List FlatBlock) : List FlatBlock :=
  if depth > D ∨ N ≤ acc.length then acc
  else loop D N depth children acc

/-- notion.ts lines 125–153 (`fetchPageBlocks`): `D` models
`parseInt(MAX_DEPTH)`, `N` models `parseInt(MAX_BLOCKS)`; `tree` is the list
of root children the upstream returns for the page id; the fresh `result`
array is the empty accumulator. -/
def fetchPageBlocks (D N : Nat) (tree : List Block) : List FlatBlock :=
  recurse D N 0 tree []

/-- Specification-side definition: the pre-order listing of every node of
the tree lying at depth ≤ D (each parent's children in upstream order, a
child's subtree before the next sibling).  Used to state claim C3. -/
def withinDepth (D : Nat) (depth : Nat) : List Block → List FlatBlock
  | [] => []
  | Block.node bid btype _ ch :: rest =>
    ⟨bid, btype, depth⟩ ::
      ((if depth < D then withinDepth D (depth + 1) ch else []) ++
        withinDepth D depth rest)
termination_by l => sizeOf l

mutual

/-- Upstream well-formedness: a block whose `has_children` flag is `false`
really has no children (what the Notion API guarantees). -/
def blockWF : Block → Bool
  | .node _ _ hc ch => (hc || ch.isEmpty) && blocksWF ch

/-- `blockWF` for every block of a list. -/
def blocksWF : List Block → Bool
  | [] => true
  | b :: rest => blockWF b && blocksWF rest

end

/-- analyze.ts lines 35–43: the handler processes targets sequentially and
each page target calls `fetchPageBlocks` afresh; notion.ts line 128
allocates a new `result` array (and hence a fresh running count) per
invocation.  This is the cumulative number of nodes emitted across all page
targets of one request (`trees` = one upstream tree per page target). -/
def totalNodesAcrossTargets (D N : Nat) (trees : List (List Block)) : Nat :=
  (trees.map fun t => (fetchPageBlocks D N t).length).sum

/- ── JSON values (request bodies, normalized property values) ─────── -/

/-- A JSON value: request bodies, raw property payload fields, and the
normalized values produced by `extractSimpleProperties`. -/
inductive Json where
  | null
  | bool (b : Bool)
  | num (n : Int)
  | str (s : String)
  | arr (elems : List Json)
  | obj (fields : List (String × Json))

/-- Minimal JSON string escaping (backslash and double quote), modelling
`JSON.stringify`'s treatment of the characters relevant here. -/
def jsonEscape (s : String) : String :=
  ⟨s.data.foldr (fun c acc => if c = '"' ∨ c = '\\' then '\\' :: c :: acc else c :: acc) []⟩

mutual

/-- Model of `JSON.stringify` (object/array member order preserved, no
whitespace). -/
def jsonStringify : Json → String
  | .null => "null"
  | .bool true => "true"
  | .bool false => "false"
  | .num n => toString n
  | .str s => "\"" ++ jsonEscape s ++ "\""
  | .arr xs => "[" ++ jsonStringifyList xs ++ "]"
  | .obj fs => "\x7b" ++ jsonStringifyFields fs ++ "\x7d"

/-- Comma-joined serializations of array elements. -/
def jsonStringifyList : List Json → String
  | [] => ""
  | [x] => jsonStringify x
  | x :: xs => jsonStringify x ++ "," ++ jsonStringifyList xs

/-- Comma-joined `"key":value` serializations of object fields. -/
def jsonStringifyFields : List (String × Json) → String
  | [] => ""
  | [(k, v)] => "\"" ++ jsonEscape k ++ "\":" ++ jsonStringify v
  | (k, v) :: rest =>
    "\"" ++ jsonEscape k ++ "\":" ++ jsonStringify v ++ "," ++ jsonStringifyFields rest

end

/-- JS property access `j.key` (undefined when absent or not an object). -/
def getField (j : Json) (key : String) : Option Json :=
  match j with
  | .obj fs => fs.lookup key
  | _ => none

/-- JS `body && typeof body === "object"`: true exactly for objects and
arrays (null is falsy; primitives have a different typeof). -/
def isObjType : Json → Bool
  | .obj _ => true
  | .arr _ => true
  | _ => false

/-- Is this JSON value a string? (JS `typeof x === "string"`). -/
def isJsonString : Json → Bool
  | .str _ => true
  | _ => false

/-- JS assignment `fields[k] = v` on an object modelled as an insertion
ordered association list: update in place if the key exists, else append. -/
def setKey (fields : List (String × Json)) (k : String) (v : Json) :
    List (String × Json) :=
  if fields.any (fun f => f.1 == k) then
    fields.map fun f => if f.1 == k then (f.1, v) else f
  else fields ++ [(k, v)]

/-- JS object spread: start from `base`, then write every field of `extra`
over it (later keys override earlier ones). -/
def jsSpread (base extra : List (String × Json)) : List (String × Json) :=
  extra.foldl (fun acc kv => setKey acc kv.1 kv.2) base

/-- notion.ts lines 105–114 (`queryDatabase`): the body sent upstream is the
object literal spreading the user `query` AFTER the `page_size` default, so
a `page_size` key in `query` overrides the configured cap.  `dbPageLimit`
models `parseInt(process.env.DB_PAGE_LIMIT ?? "50", 10)`. -/
def queryDatabaseBody (dbPageLimit : Int) (query : List (String × Json)) :
    List (String × Json) :=
  jsSpread [("page_size", Json.num dbPageLimit)] query

/-- The default of the DB_PAGE_LIMIT environment variable. -/
def DB_PAGE_LIMIT_DEFAULT : Int := 50

/- ── api/_lib/text.ts — rich text and block-to-text rendering ─────── -/

/-- text.ts lines 8–12 (`RichTextItem`): `text` models `text?.content`. -/
structure RichTextItem where
  plain_text : Option String
  text : Option String

/-- text.ts lines 14–17 (`richTextToPlain`): `none` models a missing or
non-array `rich_text` field (the `!richTexts || !Array.isArray` guard). -/
def richTextToPlain (richTexts : Option (List RichTextItem)) : String :=
  match richTexts with
  | none => ""
  | some l => joinAll (l.map fun rt => rt.plain_text.getD (rt.text.getD ""))

/-- The `icon` object of a callout block (type tag plus emoji field). -/
structure IconObj where
  type : String
  emoji : String

/-- The fields of `block[block.type]` that `blockToText` reads. -/
structure BContent where
  rich_text : Option (List RichTextItem)
  checked : Bool
  icon : Option IconObj
  language : Option String
  cells : Option (List (List RichTextItem))
  title : Option String
  url : Option String

/-- A raw block as consumed by `blockToText`: its `type` tag and the content
record stored under that tag (`none` when `block[type]` is missing). -/
structure RawBlock where
  type : String
  content : Option BContent

/-- text.ts lines 21–106 (`blockToText`): one rendered line (or fenced
multi-line for code) per block, indented two spaces per depth level. -/
def blockToText (block : RawBlock) (depth : Nat) : String :=
  let indent := strRepeat "  " depth
  match block.content with
  | none => indent ++ "[" ++ block.type ++ "]"
  | some content =>
    let text := richTextToPlain content.rich_text
    match block.type with
    | "paragraph" => if text = "" then "" else indent ++ text
    | "heading_1" => indent ++ "# " ++ text
    | "heading_2" => indent ++ "## " ++ text
    | "heading_3" => indent ++ "### " ++ text
    | "bulleted_list_item" => indent ++ "• " ++ text
    | "numbered_list_item" => indent ++ "1. " ++ text
    | "to_do" => indent ++ "[" ++ (if content.checked then "x" else " ") ++ "] " ++ text
    | "toggle" => indent ++ "▸ " ++ text
    | "quote" => indent ++ "> " ++ text
    | "callout" =>
      let emoji := match content.icon with
        | some ic => if ic.type = "emoji" then ic.emoji ++ " " else ""
        | none => ""
      indent ++ emoji ++ text
    | "code" =>
      let lang := content.language.getD ""
      indent ++ "```" ++ lang ++ "\n" ++ indent ++ text ++ "\n" ++ indent ++ "```"
    | "divider" => indent ++ "---"
    | "table_row" =>
      match content.cells with
      | none => indent ++ "[table_row]"
      | some cells =>
        indent ++ "| " ++ joinSep " | " (cells.map fun c => richTextToPlain (some c)) ++ " |"
    | "child_page" => indent ++ "📄 " ++ content.title.getD "Untitled"
    | "child_database" => indent ++ "🗃️ " ++ content.title.getD "Untitled DB"
    | "image" => indent ++ "[" ++ block.type ++ "]"
    | "video" => indent ++ "[" ++ block.type ++ "]"
    | "file" => indent ++ "[" ++ block.type ++ "]"
    | "pdf" => indent ++ "[" ++ block.type ++ "]"
    | "bookmark" => indent ++ "🔗 " ++ content.url.getD "[bookmark]"
    | "embed" => indent ++ "[embed: " ++ content.url.getD "unknown" ++ "]"
    | t => if text = "" then indent ++ "[" ++ t ++ "]" else indent ++ text

/- ── api/_lib/normalize.ts — the typed-property normalizer ────────── -/

/-- The `date` payload: `start` passed through verbatim, `endv` models the
possibly-absent `end` field (`end` is a Lean keyword). -/
structure DateObj where
  start : Json
  endv : Option Json

/-- The `formula`/`rollup` payload: its own `type` sub-discriminant and the
record's fields, accessed as `f?.[f?.type]`. -/
structure FormulaObj where
  type : String
  fields : List (String × Json)

/-- A typed Notion property as read by `extractSimpleProperties`: one
constructor per recognized `type` discriminant carrying exactly the payload
the corresponding switch case reads (scalar payloads that are passed
through verbatim are a `Json`), plus `other t` for a property whose
discriminant `t` is none of the recognized ones (the `default` branch). -/
inductive NProp where
  | title (title : Option (List RichTextItem))
  | rich_text (rich_text : Option (List RichTextItem))
  | number (number : Json)
  | select (select : Option String)
  | multi_select (multi_select : Option (List String))
  | status (status : Option String)
  | date (date : Option DateObj)
  | checkbox (checkbox : Json)
  | url (url : Json)
  | email (email : Json)
  | phone_number (phone_number : Json)
  | people (people : Option (List (Option String)))
  | relation (relation : Option (List String))
  | formula (formula : Option FormulaObj)
  | rollup (rollup : Option FormulaObj)
  | created_time (created_time : Json)
  | last_edited_time (last_edited_time : Json)
  | created_by (created_by : Option (Option String))
  | last_edited_by (last_edited_by : Option (Option String))
  | other (type : String)

/-- `x ?? null` for an optional string (select/status/people names). -/
def optStrToJson : Option String → Json
  | some s => .str s
  | none => .null

/-- The switch of normalize.ts lines 67–133: the normalized value of one
typed property. -/
def extractOne : NProp → Json
  | .title r => .str (richTextToPlain r)
  | .rich_text r => .str (richTextToPlain r)
  | .number v => v
  | .select s => optStrToJson s
  | .multi_select o => .arr ((o.getD []).map Json.str)
  | .status s => optStrToJson s
  | .date d =>
    match d with
    | some dp => .obj [("start", dp.start), ("end", dp.endv.getD .null)]
    | none => .null
  | .checkbox v => v
  | .url v => v
  | .email v => v
  | .phone_number v => v
  | .people p => .arr ((p.getD []).map fun n => Json.str (n.getD "Unknown"))
  | .relation r => .arr ((r.getD []).map Json.str)
  | .formula f =>
    match f with
    | some fo => (fo.fields.lookup fo.type).getD .null
    | none => .null
  | .rollup r =>
    match r with
    | some ro => (ro.fields.lookup ro.type).getD .null
    | none => .null
  | .created_time v => v
  | .last_edited_time v => v
  | .created_by cb =>
    match cb with
    | some (some n) => .str n
    | _ => .null
  | .last_edited_by lb =>
    match lb with
    | some (some n) => .str n
    | _ => .null
  | .other t => .str ("[" ++ t ++ "]")

/-- The discriminants handled by a named case of the switch. -/
def RECOGNIZED_PROP_TYPES : List String :=
  ["title", "rich_text", "number", "select", "multi_select", "status", "date",
   "checkbox", "url", "email", "phone_number", "people", "relation", "formula",
   "rollup", "created_time", "last_edited_time", "created_by", "last_edited_by"]

/-- normalize.ts lines 60–137 (`extractSimpleProperties`): the for-of loop
over `Object.entries(props)` writing `result[key]` for every key, modelled
as a map over the insertion-ordered association list. -/
def extractSimpleProperties (props : List (String × NProp)) : List (String × Json) :=
  props.map fun kv => (kv.1, extractOne kv.2)

/-- The plain text of a title array: `titleArr.map(t => t.plain_text ?? "").join("")`. -/
def titleJoin (arr : List RichTextItem) : String :=
  joinAll (arr.map fun t => t.plain_text.getD "")

/-- One probe of `extractPageTitle`: does this property have discriminant
`title` with a non-empty title array?  If so, its joined plain text. -/
def tryTitleProp : Option NProp → Option String
  | some (NProp.title (some arr)) =>
    if arr.length > 0 then some (titleJoin arr) else none
  | _ => none

/-- normalize.ts lines 31–58 (`extractPageTitle`): conventional key names
first, then a scan of all properties, else the sentinel. -/
def extractPageTitle (props : Option (List (String × NProp))) : String :=
  match props with
  | none => "Untitled"
  | some ps =>
    match ["title", "Title", "Name", "name"].findSome? (fun k => tryTitleProp (ps.lookup k)) with
    | some s => s
    | none =>
      match ps.findSome? (fun kv => tryTitleProp (some kv.2)) with
      | some s => s
      | none => "Untitled"

/- ── api/_lib/normalize.ts — target assembly and truncation ───────── -/

/-- normalize.ts line 9. -/
def MAX_CONTENT_CHARS : Nat := 20000

/-- The marker appended on truncation (normalize.ts lines 154 and 193). -/
def TRUNCATION_MARKER : String := "\n... [truncated]"

/-- The cap/marker rule applied to both page and database content
(normalize.ts lines 153–155 and 192–194). -/
def truncateIfLong (s : String) : String :=
  if s.length > MAX_CONTENT_CHARS then jsSlice s MAX_CONTENT_CHARS ++ TRUNCATION_MARKER
  else s

/-- normalize.ts lines 22–27 (`NormalizedDatabaseItem`). -/
structure NormalizedDatabaseItem where
  id : String
  title : String
  properties : List (String × Json)
  properties_raw : List (String × NProp)

/-- The target reference of a normalized target. -/
structure TargetRef where
  type : String
  id : String

/-- normalize.ts lines 13–20 (`NormalizedTarget`). -/
structure NormalizedTarget where
  target : TargetRef
  title : String
  properties : List (String × Json)
  content_text : String
  blocks_count : Nat
  items : Option (List NormalizedDatabaseItem)

/-- A fetched block as consumed by the page assembler: its raw record and
its traversal depth (the `data`/`depth` fields of a `FlatBlock`). -/
structure PageBlock where
  data : RawBlock
  depth : Nat

/-- normalize.ts lines 147–150: the page content before truncation
(non-empty rendered lines joined by newlines). -/
def pageContentRaw (blocks : List PageBlock) : String :=
  joinSep "\n" ((blocks.map fun b => blockToText b.data b.depth).filter
    fun line => line.length > 0)

/-- normalize.ts lines 139–164 (`normalizePageTarget`): `pageProps` models
`page.properties` of the retrieved page; `blocks` the fetched flat list. -/
def normalizePageTarget (pageId : String) (pageProps : Option (List (String × NProp)))
    (blocks : List PageBlock) : NormalizedTarget :=
  { target := ⟨"page", pageId⟩
    title := extractPageTitle pageProps
    properties := extractSimpleProperties (pageProps.getD [])
    content_text := truncateIfLong (pageContentRaw blocks)
    blocks_count := blocks.length
    items := none }

/-- One row of a database query response as read by
`normalizeDatabaseTarget`: its id and its `properties` record. -/
structure DbItem where
  id : String
  properties : Option (List (String × NProp))

/-- normalize.ts lines 172–180: the per-row normalized items. -/
def dbItems (results : List DbItem) : List NormalizedDatabaseItem :=
  results.map fun item =>
    { id := item.id
      title := extractPageTitle item.properties
      properties := extractSimpleProperties (item.properties.getD [])
      properties_raw := item.properties.getD [] }

/-- normalize.ts lines 183–190: the database summary text before truncation
(numbered title line plus one indented `key: JSON-value` line per
normalized property, rows joined by blank lines). -/
def dbContentRaw (items : List NormalizedDatabaseItem) : String :=
  joinSep "\n\n" (items.enum.map fun ii =>
    let propLines := joinSep "\n" (ii.2.properties.map fun kv =>
      "  " ++ kv.1 ++ ": " ++ jsonStringify kv.2)
    toString (ii.1 + 1) ++ ". " ++ ii.2.title ++ "\n" ++ propLines)

/-- normalize.ts lines 168–204 (`normalizeDatabaseTarget`): `results` models
`response.results ?? []` of the database query. -/
def normalizeDatabaseTarget (targetId : String) (results : List DbItem) :
    NormalizedTarget :=
  let items := dbItems results
  { target := ⟨"database", targetId⟩
    title := "Database (" ++ toString items.length ++ " items)"
    properties := []
    content_text := truncateIfLong (dbContentRaw items)
    blocks_count := 0
    items := some items }

/- ── api/_lib/validate.ts — request validation and keyword guard ──── -/

/-- validate.ts line 131. -/
def WRITE_KEYWORDS : List String :=
  ["commit", "create", "update", "delete", "append", "write", "remove", "insert"]

/-- The rejection message of the keyword guard (validate.ts line 146). -/
def writeRejectMsg (keyword : String) : String :=
  "Write operation rejected: request contains forbidden keyword \"" ++ keyword ++
    "\". This API is read-only."

/-- The validated request data (validate.ts lines 122–127): `targets` keeps
the raw JSON target objects; `instructions`/`focus` pass through unchanged
(the source only casts them). -/
structure AnalyzeRequest where
  targets : List Json
  mode : String
  instructions : Option Json
  focus : Option Json

/-- The result union of `validateRequest`. -/
inductive VResult where
  | ok (data : AnalyzeRequest)
  | fail (message : String)

/-- The per-index target checks of validate.ts lines 155–166, returning the
first error message if any. -/
def validateTargetsLoop : Nat → List Json → Option String
  | _, [] => none
  | i, t :: rest =>
    if isObjType t = false then
      some ("targets[" ++ toString i ++ "] must be an object")
    else if (match getField t "type" with
             | some (Json.str s) => s == "page" || s == "database"
             | _ => false) = false then
      some ("targets[" ++ toString i ++ "].type must be \"page\" or \"database\"")
    else if (match getField t "id" with
             | some (Json.str s) => !(s == "")
             | _ => false) = true then
      validateTargetsLoop (i + 1) rest
    else
      some ("targets[" ++ toString i ++ "].id must be a non-empty string")

/-- The `mode` of the returned data: `(b.mode as ...) ?? "project"`. -/
def modeOf (body : Json) : String :=
  match getField body "mode" with
  | some (Json.str s) => s
  | _ => "project"

/-- validate.ts lines 135–192 (`validateRequest`): object guard, keyword
guard (serialize, lowercase, scan for quoted keywords in declaration
order), then target and optional-field validation, in source order with
early returns. -/
def validateRequest (body : Json) : VResult :=
  if isObjType body = false then .fail "Request body must be a JSON object"
  else
    let bodyStr := toLowerStr (jsonStringify body)
    match WRITE_KEYWORDS.find? (fun keyword => strIncludes bodyStr ("\"" ++ keyword ++ "\"")) with
    | some keyword => .fail (writeRejectMsg keyword)
    | none =>
      match getField body "targets" with
      | some (Json.arr ts) =>
        if ts.isEmpty then .fail "\"targets\" must be a non-empty array"
        else
          match validateTargetsLoop 0 ts with
          | some msg => .fail msg
          | none =>
            if (match getField body "mode" with
                | none => false
                | some (Json.str "project") => false
                | some (Json.str "generic") => false
                | some _ => true) then .fail "\"mode\" must be \"project\" or \"generic\""
            else if (match getField body "instructions" with
                     | none => false
                     | some (Json.str _) => false
                     | some _ => true) then .fail "\"instructions\" must be a string"
            else if (match getField body "focus" with
                     | none => false
                     | some (Json.arr fs) => !(fs.all isJsonString)
                     | some _ => true) then .fail "\"focus\" must be an array of strings"
            else .ok ⟨ts, modeOf body, getField body "instructions", getField body "focus"⟩
      | _ => .fail "\"targets\" must be a non-empty array"

/- ── api/analyze.ts — the request handler ─────────────────────────── -/

/-- What the handler does before any target is processed: an early response
(status plus error message, empty for the OPTIONS preflight), or proceeding
to the fetch/normalize pipeline with the validated data.  Network traffic
can only happen on the `proceed` branch. -/
inductive GateOutcome where
  | early (status : Nat) (error : String)
  | proceed (data : AnalyzeRequest)

/-- analyze.ts lines 6–29: preflight, method check, authentication
(modelled by the result `auth` of `authenticate`: `none` is ok, `some
(status, msg)` a failure), then validation.  Every branch before target
processing is an `early` outcome. -/
def handlerGate (method : String) (auth : Option (Nat × String)) (body : Json) :
    GateOutcome :=
  if method == "OPTIONS" then .early 200 ""
  else if !(method == "POST") then .early 405 "Method not allowed. Use POST."
  else
    match auth with
    | some st => .early st.1 st.2
    | none =>
      match validateRequest body with
      | .fail msg => .early 400 msg
      | .ok data => .proceed data

/-- A validated target as dispatched by the processing loop
(analyze.ts lines 35–43). -/
inductive Target where
  | page (id : String)
  | database (id : String) (query : Option Json)

/-- Processing of one target: `normalizePageTarget` or
`normalizeDatabaseTarget`, each of which may throw (`Except.error`) on a
blocked operation or upstream error.  The oracles `fetchPage`/`fetchDb`
model the two pipelines including their network effects. -/
def runTarget (fetchPage : String → Except String NormalizedTarget)
    (fetchDb : String → Option Json → Except String NormalizedTarget) :
    Target → Except String NormalizedTarget
  | .page id => fetchPage id
  | .database id q => fetchDb id q

/-- analyze.ts lines 33–43: the sequential for-of loop pushing each
normalized target; the first throw aborts the rest of the loop and
discards the partial `normalizedTargets` array. -/
def processTargets (fetchPage : String → Except String NormalizedTarget)
    (fetchDb : String → Option Json → Except String NormalizedTarget) :
    List Target → Except String (List NormalizedTarget)
  | [] => .ok []
  | t :: rest =>
    match runTarget fetchPage fetchDb t with
    | .error e => .error e
    | .ok r =>
      match processTargets fetchPage fetchDb rest with
      | .error e => .error e
      | .ok rs => .ok (r :: rs)

/-- The handler's response as far as the claims are concerned: HTTP status,
the `ok` flag, the error message if any, and the `notion_snapshot.targets`
payload if any. -/
structure HandlerResponse where
  status : Nat
  ok : Bool
  error : Option String
  targets : Option (List NormalizedTarget)

/-- analyze.ts lines 32–62: the try/catch around the whole processing loop.
On success a single 200 carrying every normalized target; on any throw a
single 500 carrying only the message — the targets array built so far is
dropped. -/
def handlerProcess (fetchPage : String → Except String NormalizedTarget)
    (fetchDb : String → Option Json → Except String NormalizedTarget)
    (targets : List Target) : HandlerResponse :=
  match processTargets fetchPage fetchDb targets with
  | .ok nts => ⟨200, true, none, some nts⟩
  | .error e => ⟨500, false, some e, none⟩

/-- A concrete 20001-character string, used to exercise the truncation
branch of the assembler. -/
def bigString : String := ⟨List.replicate 20001 'a'⟩

/- ═══════════════════════ Theorems ═══════════════════════ -/

/- ── String facts used throughout ── -/

theorem strLength_data (s : String) : s.length = s.data.length := rfl

theorem strLength_append (a b : String) : (a ++ b).length = a.length + b.length := by
  show (a ++ b).data.length = a.data.length + b.data.length
  rw [String.data_append, List.length_append]

theorem strAppend_assoc (a b c : String) : a ++ b ++ c = a ++ (b ++ c) :=
  String.ext (by simp only [String.data_append, List.append_assoc])

/-- If the first `n` characters already differ, appending cannot restore
equality: used to show concrete path shapes never match other patterns. -/
theorem append_ne_of_take_ne (a b c : String) (n : Nat) (hn : n ≤ a.data.length)
    (h : a.data.take n ≠ c.data.take n) : a ++ b ≠ c := by
  intro he
  apply h
  have h2 : (a ++ b).data = c.data := congrArg String.data he
  rw [String.data_append] at h2
  calc a.data.take n = (a.data ++ b.data).take n :=
        (List.take_append_of_le_length hn).symm
    _ = c.data.take n := by rw [h2]

/- ── Facts about the write-guard classification ── -/

theorem isWriteCall_upper_patch (m path : String) (h : toUpperStr m = "PATCH") :
    isWriteCall (toUpperStr m) path = true := by
  rw [h]
  have h2 : toUpperStr "PATCH" = "PATCH" := by decide
  simp [isWriteCall, h2]

theorem isWriteCall_upper_delete (m path : String) (h : toUpperStr m = "DELETE") :
    isWriteCall (toUpperStr m) path = true := by
  rw [h]
  have h2 : toUpperStr "DELETE" = "DELETE" := by decide
  simp [isWriteCall, h2]

/-- For a POST, the classification reduces to the two POST-shaped patterns
of the table (page creation and comment creation). -/
theorem isWriteCall_post (path : String) :
    isWriteCall "POST" path = (pagesCreatePat path || commentsCreatePat path) := by
  have h : toUpperStr "POST" = "POST" := by decide
  simp [isWriteCall, h, WRITE_PATTERNS]

/-- No pattern of the table carries method GET, so every GET is permitted. -/
theorem isWriteCall_get (path : String) : isWriteCall "GET" path = false := by
  have h : toUpperStr "GET" = "GET" := by decide
  simp [isWriteCall, h, WRITE_PATTERNS]

theorem queryPath_pagesCreatePat (id : String) :
    pagesCreatePat (queryDatabasePath id) = false := by
  have h1 : ("/v1/databases/" ++ (id ++ "/query")) ≠ "/v1/pages" := by
    apply append_ne_of_take_ne _ _ _ 5 (by decide) (by decide)
  have h2 : ("/v1/databases/" ++ (id ++ "/query")) ≠ "/v1/pages/" := by
    apply append_ne_of_take_ne _ _ _ 5 (by decide) (by decide)
  unfold pagesCreatePat queryDatabasePath
  rw [strAppend_assoc]
  simp [h1, h2]

theorem queryPath_commentsCreatePat (id : String) :
    commentsCreatePat (queryDatabasePath id) = false := by
  have h1 : ("/v1/databases/" ++ (id ++ "/query")) ≠ "/v1/comments" := by
    apply append_ne_of_take_ne _ _ _ 5 (by decide) (by decide)
  have h2 : ("/v1/databases/" ++ (id ++ "/query")) ≠ "/v1/comments/" := by
    apply append_ne_of_take_ne _ _ _ 5 (by decide) (by decide)
  unfold commentsCreatePat queryDatabasePath
  rw [strAppend_assoc]
  simp [h1, h2]

/-- Claim C1: every call through `notionFetch` is classified from its
(method, path) pair alone before any network request: PATCH and DELETE are
blocked on any path, a POST to a page-creation-shaped or comment-creation
path is blocked with the BLOCKED error, and a GET to a record-retrieval
path as well as a POST to a database-query or search path is permitted
(forwarded). -/
theorem claim_C1 (m path pid bid did : String) :
    ((toUpperStr m = "PATCH" ∨ toUpperStr m = "DELETE") →
      notionFetch path (some m) = .error (blockedMsg (toUpperStr m) path)) ∧
    (toUpperStr m = "POST" →
      (pagesCreatePat path = true ∨ commentsCreatePat path = true) →
      notionFetch path (some m) = .error (blockedMsg (toUpperStr m) path)) ∧
    (toUpperStr m = "GET" → notionFetch path (some m) = .ok ("GET", path)) ∧
    notionFetch (retrievePagePath pid) none = .ok ("GET", retrievePagePath pid) ∧
    notionFetch (retrieveBlockChildrenPath bid) none =
      .ok ("GET", retrieveBlockChildrenPath bid) ∧
    notionFetch (queryDatabasePath did) (some "POST") =
      .ok ("POST", queryDatabasePath did) ∧
    notionFetch searchPath (some "POST") = .ok ("POST", searchPath) := by
  refine ⟨?_, ?_, ?_, ?_, ?_, ?_, ?_⟩
  · intro h
    unfold notionFetch
    rcases h with h | h
    · rw [show ((some m).getD "GET") = m from rfl,
        if_pos (isWriteCall_upper_patch m path h)]
    · rw [show ((some m).getD "GET") = m from rfl,
        if_pos (isWriteCall_upper_delete m path h)]
  · intro h hpat
    unfold notionFetch
    rw [show ((some m).getD "GET") = m from rfl, h]
    have hw : isWriteCall "POST" path = true := by
      rw [isWriteCall_post]
      rcases hpat with h2 | h2 <;> simp [h2]
    rw [if_pos hw]
  · intro h
    unfold notionFetch
    rw [show ((some m).getD "GET") = m from rfl, h,
      if_neg (by rw [isWriteCall_get]; exact fun hh => nomatch hh)]
  · unfold notionFetch
    rw [show ((none : Option String).getD "GET") = "GET" from rfl]
    rw [show toUpperStr "GET" = "GET" from by decide]
    rw [if_neg (by rw [isWriteCall_get]; exact fun hh => nomatch hh)]
  · unfold notionFetch
    rw [show ((none : Option String).getD "GET") = "GET" from rfl]
    rw [show toUpperStr "GET" = "GET" from by decide]
    rw [if_neg (by rw [isWriteCall_get]; exact fun hh => nomatch hh)]
  · unfold notionFetch
    rw [show toUpperStr ((some "POST").getD "GET") = "POST" from by decide]
    rw [if_neg (by
      rw [isWriteCall_post, queryPath_pagesCreatePat, queryPath_commentsCreatePat]
      exact fun hh => nomatch hh)]
  · unfold notionFetch
    rw [show toUpperStr ((some "POST").getD "GET") = "POST" from by decide]
    rw [if_neg (by
      rw [isWriteCall_post]
      exact fun hh => nomatch hh)]

/-- Witness for claim C1 at a concrete blocked call (a lowercase delete of
a block). -/
theorem claim_C1_witness :
    (toUpperStr "delete" = "PATCH" ∨ toUpperStr "delete" = "DELETE") ∧
    notionFetch "/v1/blocks/b1" (some "delete") =
      .error (blockedMsg (toUpperStr "delete") "/v1/blocks/b1") :=
  ⟨Or.inr (by decide),
   (claim_C1 "delete" "/v1/blocks/b1" "p" "b" "d").1 (Or.inr (by decide))⟩

/- ── Facts about the bounded traversal ── -/

theorem loop_stop (D N depth : Nat) (l : List Block) (acc : List FlatBlock)
    (h : N ≤ acc.length) : loop D N depth l acc = acc := by
  cases l with
  | nil => simp [loop]
  | cons b rest =>
    cases b with
    | node bid btype hc ch => simp only [loop, if_pos h]

/-- The running node count never exceeds the budget (induction on the size
of the upstream forest). -/
theorem loop_length_le (D N : Nat) : ∀ (n : Nat) (l : List Block), sizeOf l ≤ n →
    ∀ (depth : Nat) (acc : List FlatBlock), acc.length ≤ N →
      (loop D N depth l acc).length ≤ N := by
  intro n
  induction n with
  | zero =>
    intro l hl
    cases l with
    | nil => intro depth acc h; simpa [loop] using h
    | cons b rest =>
      cases b with
      | node bid btype hc ch => simp at hl
  | succ n ih =>
    intro l hl depth acc hacc
    cases l with
    | nil => simpa [loop] using hacc
    | cons b rest =>
      cases b with
      | node bid btype hc ch =>
        by_cases hstop : N ≤ acc.length
        · rw [loop_stop D N depth _ _ hstop]; exact hacc
        · have hsz : sizeOf ch ≤ n ∧ sizeOf rest ≤ n := by
            simp at hl; omega
          have hacc1 : (acc ++ [(⟨bid, btype, depth⟩ : FlatBlock)]).length ≤ N := by
            simp; omega
          simp only [loop, if_neg hstop]
          apply ih rest hsz.2
          by_cases hrec : hc = true ∧ depth < D
          · rw [if_pos hrec]
            by_cases hguard : depth + 1 > D ∨
                N ≤ (acc ++ [(⟨bid, btype, depth⟩ : FlatBlock)]).length
            · rw [if_pos hguard]; exact hacc1
            · rw [if_neg hguard]; exact ih ch hsz.1 _ _ hacc1
          · rw [if_neg hrec]; exact hacc1

/-- Every emitted node's depth stays at or below the ceiling. -/
theorem loop_depth_le (D N : Nat) : ∀ (n : Nat) (l : List Block), sizeOf l ≤ n →
    ∀ (depth : Nat) (acc : List FlatBlock), depth ≤ D →
      (∀ x ∈ acc, x.depth ≤ D) →
      ∀ x ∈ loop D N depth l acc, x.depth ≤ D := by
  intro n
  induction n with
  | zero =>
    intro l hl
    cases l with
    | nil => intro depth acc _ hacc; simpa [loop] using hacc
    | cons b rest =>
      cases b with
      | node bid btype hc ch => simp at hl
  | succ n ih =>
    intro l hl depth acc hdep hacc
    cases l with
    | nil => simpa [loop] using hacc
    | cons b rest =>
      cases b with
      | node bid btype hc ch =>
        by_cases hstop : N ≤ acc.length
        · rw [loop_stop D N depth _ _ hstop]; exact hacc
        · have hsz : sizeOf ch ≤ n ∧ sizeOf rest ≤ n := by
            simp at hl; omega
          have hacc1 : ∀ x ∈ acc ++ [(⟨bid, btype, depth⟩ : FlatBlock)], x.depth ≤ D := by
            intro x hx
            rcases List.mem_append.mp hx with h | h
            · exact hacc x h
            · simp at h; subst h; exact hdep
          simp only [loop, if_neg hstop]
          apply ih rest hsz.2 depth _ hdep
          by_cases hrec : hc = true ∧ depth < D
          · rw [if_pos hrec]
            by_cases hguard : depth + 1 > D ∨
                N ≤ (acc ++ [(⟨bid, btype, depth⟩ : FlatBlock)]).length
            · rw [if_pos hguard]; exact hacc1
            · rw [if_neg hguard]
              exact ih ch hsz.1 (depth + 1) _ (by omega) hacc1
          · rw [if_neg hrec]; exact hacc1

/-- One invocation of the fetcher never emits more than `N` nodes (the
guard case of `recurse` returns the empty accumulator). -/
theorem fetchPageBlocks_length_le (D N : Nat) (tree : List Block) :
    (fetchPageBlocks D N tree).length ≤ N := by
  unfold fetchPageBlocks recurse
  split
  · simp
  · exact loop_length_le D N (sizeOf tree) tree le_rfl 0 [] (by simp)

/-- Claim C2: for every configured maxDepth `D` and maxNodes `N > 0` and
any upstream tree shape, one invocation of `fetchPageBlocks` emits at most
`N` nodes, and every emitted node has depth at most `D`. -/
theorem claim_C2 (D N : Nat) (tree : List Block) (hN : 0 < N) :
    (fetchPageBlocks D N tree).length ≤ N ∧
      ∀ x ∈ fetchPageBlocks D N tree, x.depth ≤ D := by
  refine ⟨fetchPageBlocks_length_le D N tree, ?_⟩
  unfold fetchPageBlocks recurse
  split
  · simp
  · exact loop_depth_le D N (sizeOf tree) tree le_rfl 0 [] (Nat.zero_le D) (by simp)

/-- Witness for claim C2 at maxDepth 0, maxNodes 1 and the empty tree. -/
theorem claim_C2_witness :
    0 < 1 ∧ ((fetchPageBlocks 0 1 []).length ≤ 1 ∧
      ∀ x ∈ fetchPageBlocks 0 1 [], x.depth ≤ 0) :=
  ⟨by decide, claim_C2 0 1 [] (by decide)⟩

/-- The traversal computes exactly the depth-truncated pre-order walk as
long as the budget suffices (induction on the size of the forest; upstream
well-formedness ties the `has_children` gate to real children). -/
theorem loop_eq_within (D N : Nat) : ∀ (n : Nat) (l : List Block), sizeOf l ≤ n →
    ∀ (depth : Nat) (acc : List FlatBlock), blocksWF l = true →
      acc.length + (withinDepth D depth l).length ≤ N →
      loop D N depth l acc = acc ++ withinDepth D depth l := by
  intro n
  induction n with
  | zero =>
    intro l hl
    cases l with
    | nil => intro depth acc _ _; simp [loop, withinDepth]
    | cons b rest =>
      cases b with
      | node bid btype hc ch => simp at hl
  | succ n ih =>
    intro l hl depth acc hwf hbud
    cases l with
    | nil => simp [loop, withinDepth]
    | cons b rest =>
      cases b with
      | node bid btype hc ch =>
        have hsz : sizeOf ch ≤ n ∧ sizeOf rest ≤ n := by simp at hl; omega
        have hwf2 : (hc || ch.isEmpty) = true ∧ blocksWF ch = true ∧
            blocksWF rest = true := by
          rw [blocksWF, blockWF, Bool.and_eq_true, Bool.and_eq_true] at hwf
          exact ⟨hwf.1.1, hwf.1.2, hwf.2⟩
        simp only [withinDepth] at hbud ⊢
        have hstop : ¬ N ≤ acc.length := by
          simp [List.length_append] at hbud; omega
        simp only [loop, if_neg hstop]
        by_cases hrec : hc = true ∧ depth < D
        · rw [if_pos hrec]
          have hwc : (if depth < D then withinDepth D (depth + 1) ch else []) =
              withinDepth D (depth + 1) ch := if_pos hrec.2
          rw [hwc] at hbud ⊢
          by_cases hguard : depth + 1 > D ∨
              N ≤ (acc ++ [(⟨bid, btype, depth⟩ : FlatBlock)]).length
          · rw [if_pos hguard]
            have hg2 : N ≤ acc.length + 1 := by
              rcases hguard with h | h
              · exact absurd h (by omega)
              · simpa using h
            have hlen0 : (withinDepth D (depth + 1) ch).length = 0 ∧
                (withinDepth D depth rest).length = 0 := by
              simp [List.length_append] at hbud; omega
            have he1 : withinDepth D (depth + 1) ch = [] :=
              List.length_eq_zero.mp hlen0.1
            have he2 : withinDepth D depth rest = [] :=
              List.length_eq_zero.mp hlen0.2
            rw [loop_stop D N depth rest _ (by simpa using hg2), he1, he2]
            simp
          · rw [if_neg hguard]
            have hb1 : (acc ++ [(⟨bid, btype, depth⟩ : FlatBlock)]).length +
                (withinDepth D (depth + 1) ch).length ≤ N := by
              simp [List.length_append] at hbud ⊢; omega
            rw [ih ch hsz.1 (depth + 1) _ hwf2.2.1 hb1]
            have hb2 : ((acc ++ [(⟨bid, btype, depth⟩ : FlatBlock)]) ++
                withinDepth D (depth + 1) ch).length +
                (withinDepth D depth rest).length ≤ N := by
              simp [List.length_append] at hbud ⊢; omega
            rw [ih rest hsz.2 depth _ hwf2.2.2 hb2]
            simp
        · rw [if_neg hrec]
          have hwc0 : (if depth < D then withinDepth D (depth + 1) ch else []) = [] := by
            by_cases hd : depth < D
            · have hcf : hc = false := by
                cases hc
                · rfl
                · exact absurd ⟨rfl, hd⟩ hrec
              have hche : ch.isEmpty = true := by
                rw [hcf] at hwf2
                simpa using hwf2.1
              have hch : ch = [] := by
                cases ch
                · rfl
                · simp at hche
              rw [if_pos hd, hch]
              simp [withinDepth]
            · exact if_neg hd
          rw [hwc0] at hbud ⊢
          have hb2 : (acc ++ [(⟨bid, btype, depth⟩ : FlatBlock)]).length +
              (withinDepth D depth rest).length ≤ N := by
            simp [List.length_append] at hbud ⊢; omega
          rw [ih rest hsz.2 depth _ hwf2.2.2 hb2]
          simp

/-- Claim C3: on a well-formed upstream tree whose number of descendants
within depth `D` is strictly below the budget `N`, the fetcher returns
exactly the depth-truncated pre-order walk — every such descendant once, a
parent's children in response order, a child's subtree before the next
sibling. -/
theorem claim_C3 (D N : Nat) (tree : List Block) (hwf : blocksWF tree = true)
    (hsize : (withinDepth D 0 tree).length < N) :
    fetchPageBlocks D N tree = withinDepth D 0 tree := by
  unfold fetchPageBlocks recurse
  rw [if_neg (by simp; omega)]
  have h := loop_eq_within D N (sizeOf tree) tree le_rfl 0 [] hwf
    (by simpa using Nat.le_of_lt hsize)
  simpa using h

/-- Witness for claim C3 on a one-node tree with budget 2. -/
theorem claim_C3_witness :
    blocksWF [Block.node "a" "x" false []] = true ∧
    (withinDepth 0 0 [Block.node "a" "x" false []]).length < 2 ∧
    fetchPageBlocks 0 2 [Block.node "a" "x" false []] =
      withinDepth 0 0 [Block.node "a" "x" false []] :=
  ⟨by simp [blocksWF, blockWF],
   by simp [withinDepth],
   claim_C3 0 2 [Block.node "a" "x" false []] (by simp [blocksWF, blockWF])
     (by simp [withinDepth])⟩

/-- Claim C8, counterexample: with maxNodes = 1 a request holding two page
targets (each a single-node tree) emits 2 nodes in total — the running
count is reset between targets, so the cumulative total exceeds the single
configured budget. -/
theorem claim_C8_counterexample :
    totalNodesAcrossTargets 0 1
        [[Block.node "a" "p" false []], [Block.node "b" "p" false []]] = 2 ∧
      ¬ totalNodesAcrossTargets 0 1
          [[Block.node "a" "p" false []], [Block.node "b" "p" false []]] ≤ 1 := by
  have h : totalNodesAcrossTargets 0 1
      [[Block.node "a" "p" false []], [Block.node "b" "p" false []]] = 2 := by
    simp [totalNodesAcrossTargets, fetchPageBlocks, recurse, loop]
  exact ⟨h, by rw [h]; omega⟩

/-- Claim C8 (amended): the node budget is per `fetchPageBlocks` invocation
— cumulative across the nested recursion of one target but reset between
targets — so each target's traversal emits at most `N` nodes and a request
with `k` page targets emits at most `k * N` nodes in total. -/
theorem claim_C8_amended (D N : Nat) (trees : List (List Block)) (t : List Block)
    (ht : t ∈ trees) :
    (fetchPageBlocks D N t).length ≤ N ∧
      totalNodesAcrossTargets D N trees ≤ trees.length * N := by
  refine ⟨fetchPageBlocks_length_le D N t, ?_⟩
  unfold totalNodesAcrossTargets
  calc (trees.map fun u => (fetchPageBlocks D N u).length).sum
      ≤ (trees.map fun u => (fetchPageBlocks D N u).length).length * N := by
        apply List.sum_le_card_nsmul
        intro x hx
        obtain ⟨u, _, rfl⟩ := List.mem_map.mp hx
        exact fetchPageBlocks_length_le D N u
    _ = trees.length * N := by rw [List.length_map]

/-- Witness for the amended claim C8. -/
theorem claim_C8_amended_witness :
    [] ∈ [([] : List Block)] ∧
    ((fetchPageBlocks 1 3 []).length ≤ 3 ∧
      totalNodesAcrossTargets 1 3 [[]] ≤ 1 * 3) :=
  ⟨by simp, claim_C8_amended 1 3 [[]] [] (by simp)⟩

/-- Claim C4: the property normalizer is total and key-preserving — the
output map has exactly the keys of the input map in order, and a property
with an unrecognized discriminant `t` is mapped by the default branch to
the literal placeholder string `[t]` (in Lean totality is by
construction: `extractSimpleProperties` is a total function, so no input
can make it throw or drop a key). -/
theorem claim_C4 (props : List (String × NProp)) (t : String)
    (ht : t ∉ RECOGNIZED_PROP_TYPES) :
    (extractSimpleProperties props).map Prod.fst = props.map Prod.fst ∧
    extractOne (NProp.other t) = Json.str ("[" ++ t ++ "]") :=
  ⟨by simp [extractSimpleProperties], rfl⟩

/-- Witness for claim C4 with the genuinely unhandled discriminant
`files`. -/
theorem claim_C4_witness :
    "files" ∉ RECOGNIZED_PROP_TYPES ∧
    ((extractSimpleProperties
        [("k", NProp.other "files"), ("n", NProp.number (Json.num 3))]).map Prod.fst =
      ([("k", NProp.other "files"), ("n", NProp.number (Json.num 3))]).map Prod.fst ∧
      extractOne (NProp.other "files") = Json.str ("[" ++ "files" ++ "]")) :=
  ⟨by decide,
   claim_C4 [("k", NProp.other "files"), ("n", NProp.number (Json.num 3))] "files"
     (by decide)⟩

/-- Helper for claim C5's witness: the serialized lowered body of the
object with a `delete` key contains the quoted keyword. -/
theorem deleteKeyBody_scan :
    strIncludes (toLowerStr (jsonStringify (Json.obj [("delete", Json.bool true)])))
      ("\"" ++ "delete" ++ "\"") = true := by
  have h : jsonStringify (Json.obj [("delete", Json.bool true)]) =
      "\x7b\"delete\":true\x7d" := by
    simp only [jsonStringify, jsonStringifyFields]
    decide
  rw [h]
  decide

/-- Claim C5 (amended to bodies that are JSON objects or arrays — the only
bodies that reach the keyword scan): if the lowercased serialization of the
body contains some write keyword as a quoted substring, validation fails
with the write-operation-rejected message of the first such keyword, and
the handler answers 400 before the processing phase (`GateOutcome.early`
precedes any network call, which can only happen under `proceed`). -/
theorem claim_C5 (body : Json) (kw : String)
    (hobj : isObjType body = true) (hkw : kw ∈ WRITE_KEYWORDS)
    (hinc : strIncludes (toLowerStr (jsonStringify body)) ("\"" ++ kw ++ "\"") = true) :
    ∃ kw2 ∈ WRITE_KEYWORDS,
      validateRequest body = .fail (writeRejectMsg kw2) ∧
      handlerGate "POST" none body = .early 400 (writeRejectMsg kw2) := by
  have hsome : (WRITE_KEYWORDS.find? (fun keyword =>
      strIncludes (toLowerStr (jsonStringify body)) ("\"" ++ keyword ++ "\""))).isSome :=
    List.find?_isSome.mpr ⟨kw, hkw, hinc⟩
  obtain ⟨kw2, hfind⟩ := Option.isSome_iff_exists.mp hsome
  have hmem : kw2 ∈ WRITE_KEYWORDS := List.mem_of_find?_eq_some hfind
  have hvr : validateRequest body = .fail (writeRejectMsg kw2) := by
    unfold validateRequest
    rw [hobj, if_neg (by simp)]
    simp only [hfind]
  exact ⟨kw2, hmem, hvr, by simp [handlerGate, hvr]⟩

/-- Witness for claim C5 on the body carrying a `delete` key. -/
theorem claim_C5_witness :
    isObjType (Json.obj [("delete", Json.bool true)]) = true ∧
    "delete" ∈ WRITE_KEYWORDS ∧
    strIncludes (toLowerStr (jsonStringify (Json.obj [("delete", Json.bool true)])))
      ("\"" ++ "delete" ++ "\"") = true ∧
    ∃ kw2 ∈ WRITE_KEYWORDS,
      validateRequest (Json.obj [("delete", Json.bool true)]) =
        .fail (writeRejectMsg kw2) ∧
      handlerGate "POST" none (Json.obj [("delete", Json.bool true)]) =
        .early 400 (writeRejectMsg kw2) :=
  ⟨rfl, by decide, deleteKeyBody_scan,
   claim_C5 (Json.obj [("delete", Json.bool true)]) "delete" rfl (by decide)
     deleteKeyBody_scan⟩

/-- Claim C5, counterexample to the unrestricted claim: the body that is
the bare JSON string `"delete"` serializes to a string containing the
quoted keyword, yet validation rejects it with the generic 400 message
`Request body must be a JSON object` — which is not the
write-operation-rejected error of any keyword. -/
theorem claim_C5_counterexample :
    strIncludes (toLowerStr (jsonStringify (Json.str "delete")))
      ("\"" ++ "delete" ++ "\"") = true ∧
    validateRequest (Json.str "delete") = .fail "Request body must be a JSON object" ∧
    "Request body must be a JSON object" ∉ WRITE_KEYWORDS.map writeRejectMsg := by
  refine ⟨?_, rfl, by decide⟩
  have h : jsonStringify (Json.str "delete") = "\"delete\"" := by
    simp only [jsonStringify]
    decide
  rw [h]
  decide

/-- Abort propagation: if any target of the list fails, the whole
processing loop fails with the first failing target's message. -/
theorem processTargets_error_of_mem
    (fp : String → Except String NormalizedTarget)
    (fd : String → Option Json → Except String NormalizedTarget) :
    ∀ (targets : List Target) (t : Target) (e : String), t ∈ targets →
      runTarget fp fd t = .error e →
      ∃ msg, processTargets fp fd targets = .error msg := by
  intro targets
  induction targets with
  | nil => intro t e ht _; cases ht
  | cons t2 rest ih =>
    intro t e ht he
    rcases List.mem_cons.mp ht with heq | hmem
    · subst heq
      exact ⟨e, by simp [processTargets, he]⟩
    · cases hrt : runTarget fp fd t2 with
      | error e2 => exact ⟨e2, by simp [processTargets, hrt]⟩
      | ok r =>
        obtain ⟨msg, hmsg⟩ := ih t e hmem he
        exact ⟨msg, by simp [processTargets, hrt, hmsg]⟩

/-- Claim C6: if processing any single target of a request throws, the
handler returns exactly one 500 error response whose payload carries no
normalized targets at all — including none for targets that had already
completed successfully earlier in the same request. -/
theorem claim_C6 (fetchPage : String → Except String NormalizedTarget)
    (fetchDb : String → Option Json → Except String NormalizedTarget)
    (targets : List Target) (t : Target) (e : String)
    (ht : t ∈ targets) (he : runTarget fetchPage fetchDb t = .error e) :
    ∃ msg, processTargets fetchPage fetchDb targets = .error msg ∧
      handlerProcess fetchPage fetchDb targets =
        ⟨500, false, some msg, none⟩ := by
  obtain ⟨msg, hmsg⟩ := processTargets_error_of_mem fetchPage fetchDb targets t e ht he
  exact ⟨msg, hmsg, by simp [handlerProcess, hmsg]⟩

/-- Witness for claim C6: the first of two targets fails upstream. -/
theorem claim_C6_witness :
    Target.page "p1" ∈ [Target.page "p1", Target.page "p2"] ∧
    runTarget (fun _ => .error "upstream 500") (fun _ _ => .error "db")
      (Target.page "p1") = .error "upstream 500" ∧
    ∃ msg, processTargets (fun _ => .error "upstream 500") (fun _ _ => .error "db")
        [Target.page "p1", Target.page "p2"] = .error msg ∧
      handlerProcess (fun _ => .error "upstream 500") (fun _ _ => .error "db")
        [Target.page "p1", Target.page "p2"] = ⟨500, false, some msg, none⟩ :=
  ⟨by simp, rfl,
   claim_C6 (fun _ => .error "upstream 500") (fun _ _ => .error "db")
     [Target.page "p1", Target.page "p2"] (Target.page "p1") "upstream 500"
     (by simp) rfl⟩

/-- Claim C7: content strictly longer than the 20000-character cap is cut
to exactly cap-plus-marker length and ends with the marker; content at or
under the cap is returned unmodified; and both the page and the database
normalizers produce their `content_text` by exactly this rule applied to
their assembled raw content. -/
theorem claim_C7 (s : String) (pid : String)
    (pageProps : Option (List (String × NProp))) (blocks : List PageBlock)
    (tid : String) (results : List DbItem) :
    (s.length > MAX_CONTENT_CHARS →
      (truncateIfLong s).length = MAX_CONTENT_CHARS + TRUNCATION_MARKER.length ∧
      ∃ pre, truncateIfLong s = pre ++ TRUNCATION_MARKER) ∧
    (s.length ≤ MAX_CONTENT_CHARS → truncateIfLong s = s) ∧
    (normalizePageTarget pid pageProps blocks).content_text =
      truncateIfLong (pageContentRaw blocks) ∧
    (normalizeDatabaseTarget tid results).content_text =
      truncateIfLong (dbContentRaw (dbItems results)) := by
  refine ⟨?_, ?_, rfl, rfl⟩
  · intro h
    unfold truncateIfLong
    rw [if_pos h]
    refine ⟨?_, jsSlice s MAX_CONTENT_CHARS, rfl⟩
    rw [strLength_append]
    have hsl : (jsSlice s MAX_CONTENT_CHARS).length = MAX_CONTENT_CHARS := by
      show (s.data.take MAX_CONTENT_CHARS).length = MAX_CONTENT_CHARS
      rw [List.length_take]
      apply Nat.min_eq_left
      rw [strLength_data] at h
      omega
    rw [hsl]
  · intro h
    unfold truncateIfLong
    rw [if_neg (by omega)]

/-- Witness for claim C7 on a 20001-character string and a short string. -/
theorem claim_C7_witness :
    (bigString.length > MAX_CONTENT_CHARS ∧
      ((truncateIfLong bigString).length =
          MAX_CONTENT_CHARS + TRUNCATION_MARKER.length ∧
        ∃ pre, truncateIfLong bigString = pre ++ TRUNCATION_MARKER)) ∧
    (("ok" : String).length ≤ MAX_CONTENT_CHARS ∧ truncateIfLong "ok" = "ok") := by
  have h1 : bigString.length > MAX_CONTENT_CHARS := by
    show (List.replicate 20001 'a').length > 20000
    rw [List.length_replicate]
    omega
  have h2 : ("ok" : String).length ≤ MAX_CONTENT_CHARS := by decide
  exact ⟨⟨h1, (claim_C7 bigString "p" none [] "d" []).1 h1⟩,
    ⟨h2, (claim_C7 "ok" "p" none [] "d" []).2.1 h2⟩⟩

/-- Claim C9, evaluation at the failing input: with the default cap of 50,
a user query carrying `page_size: 1000` makes the body sent upstream carry
`page_size = 1000 > 50` — the spread of the user query comes after the
default, so the cap is overridable. -/
theorem claim_C9_eval :
    (queryDatabaseBody DB_PAGE_LIMIT_DEFAULT [("page_size", Json.num 1000)]).lookup
      "page_size" = some (Json.num 1000) ∧
    (1000 : Int) > DB_PAGE_LIMIT_DEFAULT :=
  ⟨rfl, by decide⟩

/-- Claim C10: for every database target the normalized result has
`blocks_count = 0` and an empty top-level properties map regardless of the
query result; the row count appears only in the items array's length and
in the synthetic `Database (N items)` title. -/
theorem claim_C10 (tid : String) (results : List DbItem) :
    (normalizeDatabaseTarget tid results).blocks_count = 0 ∧
    (normalizeDatabaseTarget tid results).properties = [] ∧
    (normalizeDatabaseTarget tid results).title =
      "Database (" ++ toString results.length ++ " items)" ∧
    (normalizeDatabaseTarget tid results).items = some (dbItems results) ∧
    (dbItems results).length = results.length := by
  refine ⟨rfl, rfl, ?_, rfl, by simp [dbItems]⟩
  show "Database (" ++ toString (dbItems results).length ++ " items)" = _
  rw [show (dbItems results).length = results.length from by simp [dbItems]]
